import Mathlib

/-!
Shallow embedding of the list-ingestion pipeline of
`src/pages/api/fetch-list.js` (and `normalizeUrl` from `src/pages/index.js`),
together with theorems settling the specification claims about it.

Network collaborators (the per-page fetch and the per-attempt HTTP fetch)
are modelled as oracles: functions from a call counter to the outcome the
JavaScript code would observe at that call.
-/

namespace RandomLetterboxd

/-- A film record as built by `fetch-list.js` (`title`, `year`, `slug`,
`letterboxdUrl`). -/
structure FilmRecord where
  title : String
  year : String
  slug : String
  letterboxdUrl : String
deriving DecidableEq, Repr

/-- Loop of `dedupeFilms` (fetch-list.js lines 222-231): the JS `filter`
with a mutable `seen` set, here passed explicitly. -/
def dedupeAux (seen : List String) : List FilmRecord → List FilmRecord
  | [] => []
  | f :: rest =>
    if f.slug ∈ seen then dedupeAux seen rest
    else f :: dedupeAux (f.slug :: seen) rest

/-- `dedupeFilms` (fetch-list.js lines 222-231): keep the first occurrence
of each slug, in encounter order. -/
def dedupeFilms (films : List FilmRecord) : List FilmRecord :=
  dedupeAux [] films

/-- Spec-side definition ("the first occurrence of each slug in encounter
order is kept, later duplicates dropped"): keep the head, then recurse on
the tail with every record sharing the head's slug removed. -/
def specFirstOccurrences : List FilmRecord → List FilmRecord
  | [] => []
  | f :: rest =>
    f :: specFirstOccurrences (rest.filter (fun g => g.slug ≠ f.slug))
termination_by l => l.length
decreasing_by
  simp only [List.length_cons]
  exact Nat.lt_succ_of_le (List.length_filter_le _ _)

theorem dedupeAux_eq_spec (films : List FilmRecord) :
    ∀ seen, dedupeAux seen films =
      specFirstOccurrences (films.filter (fun f => f.slug ∉ seen)) := by
  induction films with
  | nil => intro seen; simp [dedupeAux, specFirstOccurrences]
  | cons f rest ih =>
    intro seen
    by_cases h : f.slug ∈ seen
    · have h1 : dedupeAux seen (f :: rest) = dedupeAux seen rest := by
        simp [dedupeAux, h]
      have h2 : (f :: rest).filter (fun f => decide (f.slug ∉ seen)) =
          rest.filter (fun f => decide (f.slug ∉ seen)) := by
        simp [List.filter_cons, h]
      rw [h1, h2, ih]
    · have h1 : dedupeAux seen (f :: rest) =
          f :: dedupeAux (f.slug :: seen) rest := by
        simp [dedupeAux, h]
      have h2 : (f :: rest).filter (fun f => decide (f.slug ∉ seen)) =
          f :: rest.filter (fun f => decide (f.slug ∉ seen)) := by
        simp [List.filter_cons, h]
      rw [h1, h2, specFirstOccurrences, ih (f.slug :: seen), List.filter_filter]
      congr 2
      apply List.filter_congr
      intro g _
      by_cases hg : g.slug = f.slug <;> by_cases hs : g.slug ∈ seen <;>
        simp [hg, hs]

/-- `specFirstOccurrences` output is a sublist of its input. -/
theorem specFirstOccurrences_sublist (films : List FilmRecord) :
    (specFirstOccurrences films).Sublist films := by
  induction films using specFirstOccurrences.induct with
  | case1 => simp [specFirstOccurrences]
  | case2 f rest ih =>
    rw [specFirstOccurrences]
    exact (ih.trans (List.filter_sublist rest)).cons₂ f

/-- Slugs in the `specFirstOccurrences` output are pairwise distinct. -/
theorem specFirstOccurrences_nodup (films : List FilmRecord) :
    ((specFirstOccurrences films).map FilmRecord.slug).Nodup := by
  induction films using specFirstOccurrences.induct with
  | case1 => simp [specFirstOccurrences]
  | case2 f rest ih =>
    rw [specFirstOccurrences, List.map_cons]
    refine List.nodup_cons.mpr ⟨?_, ih⟩
    intro hmem
    rcases List.mem_map.mp hmem with ⟨g, hg, hslug⟩
    have hsub := specFirstOccurrences_sublist
      (rest.filter (fun g => g.slug ≠ f.slug))
    have := List.of_mem_filter (hsub.subset hg)
    simp only [decide_eq_true_eq] at this
    exact this hslug

theorem dedupeFilms_eq_spec (films : List FilmRecord) :
    dedupeFilms films = specFirstOccurrences films := by
  have := dedupeAux_eq_spec films []
  simpa [dedupeFilms, List.filter_true] using this

theorem dedupeFilms_sublist (films : List FilmRecord) :
    (dedupeFilms films).Sublist films :=
  dedupeFilms_eq_spec films ▸ specFirstOccurrences_sublist films

/-- C1: `dedupeFilms` keeps exactly the first occurrence of each slug in
encounter order: it equals the spec-side first-occurrence function, its
output is a stable subsequence of the input, and no two output records
share a slug. -/
theorem dedupeFilms_first_occurrences (films : List FilmRecord) :
    dedupeFilms films = specFirstOccurrences films ∧
    (dedupeFilms films).Sublist films ∧
    ((dedupeFilms films).map FilmRecord.slug).Nodup :=
  ⟨dedupeFilms_eq_spec films, dedupeFilms_sublist films,
    dedupeFilms_eq_spec films ▸ specFirstOccurrences_nodup films⟩

/-- Selection of the winning source (fetch-list.js lines 27-33): the
scraped result wins when non-empty, else the RSS result when present and
non-empty, else the empty list. -/
def selectSource (rssFilms : Option (List FilmRecord))
    (scrapedFilms : List FilmRecord) : List FilmRecord :=
  if scrapedFilms.length > 0 then scrapedFilms
  else
    match rssFilms with
    | some rs => if rs.length > 0 then rs else []
    | none => []

/-- C2: source selection is a strict either/or. A non-empty scraped result
is authoritative: the output is its dedupe and every output record comes
from it (so feed-only records never appear); an empty scraped result hands
over to the feed result, whose dedupe becomes the output. -/
theorem selectSource_strict_either_or (rssFilms : Option (List FilmRecord))
    (scrapedFilms : List FilmRecord) :
    (scrapedFilms ≠ [] →
      dedupeFilms (selectSource rssFilms scrapedFilms) =
        dedupeFilms scrapedFilms ∧
      ∀ f ∈ dedupeFilms (selectSource rssFilms scrapedFilms),
        f ∈ scrapedFilms) ∧
    (∀ feedFilms, scrapedFilms = [] → rssFilms = some feedFilms →
      dedupeFilms (selectSource rssFilms scrapedFilms) =
        dedupeFilms feedFilms) := by
  constructor
  · intro hne
    have hsel : selectSource rssFilms scrapedFilms = scrapedFilms := by
      simp [selectSource, List.length_pos.mpr hne]
    rw [hsel]
    exact ⟨rfl, fun f hf => (dedupeFilms_sublist scrapedFilms).subset hf⟩
  · intro feedFilms hempty hrss
    subst hempty
    subst hrss
    by_cases hf : feedFilms.length > 0
    · simp [selectSource, hf]
    · have hnil : feedFilms = [] := by
        simpa using List.length_eq_zero.mp (Nat.eq_zero_of_not_pos hf)
      simp [selectSource, hnil]

/-- A concrete film record used in witness instantiations. -/
def filmA : FilmRecord :=
  ⟨"Film A", "", "film-a", "https://letterboxd.com/film/film-a/"⟩

/-- A second concrete film record used in witness instantiations. -/
def filmB : FilmRecord :=
  ⟨"Film B", "", "film-b", "https://letterboxd.com/film/film-b/"⟩

theorem selectSource_strict_either_or_witness :
    (dedupeFilms (selectSource (some [filmB]) [filmA]) =
        dedupeFilms [filmA] ∧
      ∀ f ∈ dedupeFilms (selectSource (some [filmB]) [filmA]),
        f ∈ [filmA]) ∧
    dedupeFilms (selectSource (some [filmB]) []) = dedupeFilms [filmB] :=
  ⟨(selectSource_strict_either_or (some [filmB]) [filmA]).1 (by simp),
   (selectSource_strict_either_or (some [filmB]) []).2 [filmB] rfl rfl⟩

/-- One `li.posteritem` container on a scraped page, with its
`data-item-slug` and `data-item-name` attribute values (`""` when the
attribute is missing). -/
structure PageItem where
  slug : String
  title : String
deriving DecidableEq, Repr

/-- What the scraper observes on one successfully fetched page: the item
containers and whether a next-page affordance (`a.next` or
`a[rel=next]`) is present. -/
structure PageHtml where
  items : List PageItem
  hasNext : Bool
deriving DecidableEq, Repr

/-- Outcome of one page fetch inside `scrapeAllPages`. `failure` covers
both a null/non-ok `fetchWithRetry` result and an exception thrown while
fetching — the two paths have identical effects on the loop state
(fetch-list.js lines 159-166 and 210-216). -/
inductive PageOutcome where
  | failure
  | success (html : PageHtml)
deriving DecidableEq, Repr

/-- Records pushed for one page (fetch-list.js lines 181-196): one record
per container having both a non-empty slug and a non-empty title. -/
def pageRecords (html : PageHtml) : List FilmRecord :=
  (html.items.filter (fun it => it.slug ≠ "" && it.title ≠ "")).map
    (fun it =>
      { title := it.title, year := "", slug := it.slug,
        letterboxdUrl := "https://letterboxd.com/film/" ++ it.slug ++ "/" })

/-- The `while` loop of `scrapeAllPages` (fetch-list.js lines 136-220).
The page-fetch collaborator is an oracle indexed by the fetch-call
counter `idx`; `page` is the current page number, `cf` the
consecutive-failure counter, `films` the accumulator. A failure on page 1
breaks immediately; a failure on a later page retries the same page after
bumping `cf`; a success resets `cf`, appends the page's records, stops on
an empty page or a missing next affordance, and stops once the next page
number would exceed 50. -/
def scrapeLoop (oracle : Nat → PageOutcome) (idx page cf : Nat)
    (films : List FilmRecord) : List FilmRecord :=
  if _hcf : cf < 2 then
    match oracle idx with
    | .failure =>
      if page = 1 then films
      else scrapeLoop oracle (idx + 1) page (cf + 1) films
    | .success html =>
      if html.items.length = 0 then films
      else
        let films2 := films ++ pageRecords html
        if html.hasNext then
          if h50 : page + 1 > 50 then films2
          else scrapeLoop oracle (idx + 1) (page + 1) 0 films2
        else films2
  else films
termination_by 3 * (51 - page) + (2 - cf)
decreasing_by
  · omega
  · omega

/-- `scrapeAllPages` (fetch-list.js lines 136-220): run the walk from
page 1 with an empty accumulator. -/
def scrapeAllPages (oracle : Nat → PageOutcome) : List FilmRecord :=
  scrapeLoop oracle 0 1 0 []

/-- C4: a successfully fetched page with zero item containers terminates
the walk at once, returning the accumulation so far — whatever the page's
next-page affordance says, and from any loop state. -/
theorem scrape_empty_page_terminates (oracle : Nat → PageOutcome)
    (idx page cf : Nat) (films : List FilmRecord) (html : PageHtml)
    (hcf : cf < 2) (hor : oracle idx = .success html)
    (hempty : html.items = []) :
    scrapeLoop oracle idx page cf films = films := by
  rw [scrapeLoop]
  simp [hcf, hor, hempty]

/-- An all-pages-empty oracle whose pages still advertise a next page. -/
def emptyPageOracle : Nat → PageOutcome :=
  fun _ => .success ⟨[], true⟩

theorem scrape_empty_page_terminates_witness :
    scrapeAllPages emptyPageOracle = [] :=
  scrape_empty_page_terminates emptyPageOracle 0 1 0 [] ⟨[], true⟩
    (by decide) rfl rfl

/-- C3: with page 1 behind us (`page ≠ 1`, failure counter 0), two
consecutive fetch failures stop the walk and return exactly the records
accumulated so far; a single failure followed by a successful, non-empty,
next-linked page does not stop the walk — it continues on the next page
with the failure counter reset to 0. -/
theorem scrape_consecutive_failures (oracle : Nat → PageOutcome)
    (idx page : Nat) (films : List FilmRecord) (hpage : page ≠ 1) :
    (oracle idx = .failure → oracle (idx + 1) = .failure →
      scrapeLoop oracle idx page 0 films = films) ∧
    (∀ html, oracle idx = .failure → oracle (idx + 1) = .success html →
      html.items ≠ [] → html.hasNext = true → page + 1 ≤ 50 →
      scrapeLoop oracle idx page 0 films =
        scrapeLoop oracle (idx + 2) (page + 1) 0
          (films ++ pageRecords html)) := by
  constructor
  · intro h1 h2
    rw [scrapeLoop]
    simp only [h1, hpage]
    rw [scrapeLoop]
    simp only [h2, hpage]
    rw [scrapeLoop]
    simp
  · intro html h1 h2 hne hnext h50
    have hlen : ¬(html.items.length = 0) := by
      simpa [List.length_eq_zero] using hne
    have h50' : ¬(page + 1 > 50) := by omega
    rw [scrapeLoop]
    simp only [h1, hpage]
    rw [scrapeLoop]
    simp only [h2, hlen, hnext, h50']
    simp [show idx + 1 + 1 = idx + 2 by omega]

/-- An oracle that fails on its first call and afterwards serves a
one-film page linking to a next page. -/
def failThenPageOracle : Nat → PageOutcome :=
  fun n =>
    if n = 0 then .failure
    else .success ⟨[⟨"film-a", "Film A"⟩], true⟩

theorem scrape_consecutive_failures_witness :
    scrapeLoop (fun _ => PageOutcome.failure) 5 2 0 [filmA] = [filmA] ∧
    scrapeLoop failThenPageOracle 0 2 0 [] =
      scrapeLoop failThenPageOracle 2 3 0
        ([] ++ pageRecords ⟨[⟨"film-a", "Film A"⟩], true⟩) :=
  ⟨(scrape_consecutive_failures (fun _ => PageOutcome.failure) 5 2 [filmA]
      (by decide)).1 rfl rfl,
   (scrape_consecutive_failures failThenPageOracle 0 2 [] (by decide)).2
      ⟨[⟨"film-a", "Film A"⟩], true⟩ rfl rfl (by decide) rfl (by decide)⟩

/-- Against an oracle that always serves a non-empty page with a next
affordance, the walk from page `page` (counter 0) appends exactly
`k = 51 - page` pages' worth of records: the page ceiling caps the walk. -/
theorem scrape_always_success (html : PageHtml)
    (hne : ¬html.items.length = 0) (hnext : html.hasNext = true) :
    ∀ k page idx films, 1 ≤ k → page + k = 51 →
      scrapeLoop (fun _ => PageOutcome.success html) idx page 0 films =
        films ++ (List.replicate k (pageRecords html)).flatten := by
  intro k
  induction k with
  | zero => intro page idx films h1 _; exact absurd h1 (by omega)
  | succ k ih =>
    intro page idx films _ hpk
    rw [scrapeLoop]
    by_cases hk : k = 0
    · have hp : page = 50 := by omega
      subst hp
      simp [hne, hnext, hk, List.replicate_succ]
    · have h50 : ¬(page + 1 > 50) := by omega
      simp only [hne, hnext, if_true, if_false, Nat.zero_lt_succ, dif_pos,
        show (0 : Nat) < 2 by decide, ite_false, ite_true, h50, dite_false]
      rw [ih (page + 1) (idx + 1) (films ++ pageRecords html) (by omega)
        (by omega)]
      simp [List.replicate_succ, List.append_assoc]

/-- The walk consults its oracle only within a window of
`3 * (51 - page) - cf` calls: two oracles agreeing on that window produce
the same result from the same state. -/
theorem scrapeLoop_oracle_agree (o1 o2 : Nat → PageOutcome) :
    ∀ M idx page cf films, cf ≤ 2 → 1 ≤ page → page ≤ 50 →
      M = 3 * (51 - page) - cf →
      (∀ j, j < M → o1 (idx + j) = o2 (idx + j)) →
      scrapeLoop o1 idx page cf films = scrapeLoop o2 idx page cf films := by
  intro M
  induction M using Nat.strong_induction_on with
  | _ M ih =>
    intro idx page cf films hcf hp1 hp50 hM hagr
    by_cases h2 : cf < 2
    · have hMpos : 0 < M := by omega
      have h0 : o2 idx = o1 idx := by
        have := hagr 0 hMpos
        simpa using this.symm
      conv_lhs => rw [scrapeLoop]
      conv_rhs => rw [scrapeLoop]
      rw [h0]
      cases horc : o1 idx with
      | failure =>
        simp only [horc, h2, dif_pos]
        by_cases hpg : page = 1
        · simp [hpg]
        · simp only [hpg, if_false, ite_false]
          refine ih (M - 1) (by omega) (idx + 1) page (cf + 1) films
            (by omega) hp1 hp50 (by omega) ?_
          intro j hj
          have := hagr (1 + j) (by omega)
          rw [show idx + 1 + j = idx + (1 + j) by omega]
          exact this
      | success html =>
        simp only [horc, h2, dif_pos]
        by_cases hlen : html.items.length = 0
        · simp [hlen]
        · simp only [hlen, if_false, ite_false]
          cases hnx : html.hasNext with
          | false => simp
          | true =>
            simp only [if_true, ite_true]
            by_cases h50 : page + 1 > 50
            · simp [h50]
            · simp only [h50, dite_false, dif_neg]
              refine ih (3 * (50 - page)) (by omega) (idx + 1) (page + 1) 0
                (films ++ pageRecords html) (by omega) (by omega) (by omega)
                (by omega) ?_
              intro j hj
              have := hagr (1 + j) (by omega)
              rw [show idx + 1 + j = idx + (1 + j) by omega]
              exact this
    · conv_lhs => rw [scrapeLoop]
      conv_rhs => rw [scrapeLoop]
      simp [h2]

/-- C6: the walk always terminates within bounded work. A failing first
fetch ends it at once with an empty accumulation; an oracle that always
serves a non-empty next-linked page is cut off after exactly 50 pages (the
hard ceiling); and the result never depends on the oracle beyond its first
150 calls. -/
theorem scrapeAllPages_terminates_within_ceiling :
    (∀ oracle : Nat → PageOutcome, oracle 0 = .failure →
      scrapeAllPages oracle = []) ∧
    (∀ html : PageHtml, html.items ≠ [] → html.hasNext = true →
      scrapeAllPages (fun _ => PageOutcome.success html) =
        (List.replicate 50 (pageRecords html)).flatten) ∧
    (∀ o1 o2 : Nat → PageOutcome, (∀ j, j < 150 → o1 j = o2 j) →
      scrapeAllPages o1 = scrapeAllPages o2) := by
  refine ⟨?_, ?_, ?_⟩
  · intro oracle h
    rw [scrapeAllPages, scrapeLoop]
    simp [h]
  · intro html hne hnext
    have hlen : ¬html.items.length = 0 := by
      simpa [List.length_eq_zero] using hne
    have := scrape_always_success html hlen hnext 50 1 0 [] (by omega)
      (by omega)
    simpa [scrapeAllPages] using this
  · intro o1 o2 hagr
    exact scrapeLoop_oracle_agree o1 o2 150 0 1 0 [] (by omega) (by omega)
      (by omega) (by omega) (fun j hj => by simpa using hagr j hj)

theorem scrapeAllPages_terminates_witness :
    scrapeAllPages (fun _ => PageOutcome.failure) = [] ∧
    scrapeAllPages
        (fun _ => PageOutcome.success ⟨[⟨"film-a", "Film A"⟩], true⟩) =
      (List.replicate 50 (pageRecords ⟨[⟨"film-a", "Film A"⟩], true⟩)).flatten ∧
    scrapeAllPages (fun _ => PageOutcome.failure) =
      scrapeAllPages (fun n =>
        if n < 150 then PageOutcome.failure
        else PageOutcome.success ⟨[], true⟩) :=
  ⟨scrapeAllPages_terminates_within_ceiling.1 _ rfl,
   scrapeAllPages_terminates_within_ceiling.2.1 _ (by decide) rfl,
   scrapeAllPages_terminates_within_ceiling.2.2 _ _
     (fun j hj => by simp [hj])⟩

/-- An HTTP response as observed by `fetchWithRetry`: its `ok` flag plus
an identifier distinguishing distinct responses. -/
structure HttpResponse where
  ok : Bool
  id : Nat
deriving DecidableEq, Repr

/-- Outcome of one `fetch` call inside `fetchWithRetry`: the promise
either rejects (`throws`) or resolves to a response. -/
inductive AttemptOutcome where
  | throws
  | resp (r : HttpResponse)
deriving DecidableEq, Repr

/-- An attempt outcome counts as successful exactly when it is a response
with `ok` set. -/
def attemptOk : AttemptOutcome → Bool
  | .throws => false
  | .resp r => r.ok

/-- The `for` loop of `fetchWithRetry` (fetch-list.js lines 64-81), the
per-attempt network result supplied by `oracle`. `.error ()` models the
exception propagating out of the final attempt; `.ok none` models the
`return null` after the loop. -/
def fetchGo (oracle : Nat → AttemptOutcome) (retries i : Nat) :
    Except Unit (Option HttpResponse) :=
  if _h : i ≤ retries then
    match oracle i with
    | .resp r =>
      if r.ok then .ok (some r) else fetchGo oracle retries (i + 1)
    | .throws =>
      if i = retries then .error () else fetchGo oracle retries (i + 1)
  else .ok none
termination_by retries + 1 - i
decreasing_by
  all_goals omega

/-- `fetchWithRetry` with its default budget of 2 retries (3 attempts). -/
def fetchWithRetry (oracle : Nat → AttemptOutcome) :
    Except Unit (Option HttpResponse) :=
  fetchGo oracle 2 0

theorem fetchGo_step_notok (oracle : Nat → AttemptOutcome) (i : Nat)
    (hi : i ≤ 2) (r : HttpResponse) (horc : oracle i = .resp r)
    (hok : r.ok = false) :
    fetchGo oracle 2 i = fetchGo oracle 2 (i + 1) := by
  conv_lhs => rw [fetchGo]
  simp [hi, horc, hok]

theorem fetchGo_step_throw (oracle : Nat → AttemptOutcome) (i : Nat)
    (hi : i < 2) (horc : oracle i = .throws) :
    fetchGo oracle 2 i = fetchGo oracle 2 (i + 1) := by
  conv_lhs => rw [fetchGo]
  simp [show i ≤ 2 by omega, show ¬(i = 2) by omega, horc]

theorem fetchGo_step_fail (oracle : Nat → AttemptOutcome) (i : Nat)
    (hi : i < 2) (hfail : attemptOk (oracle i) = false) :
    fetchGo oracle 2 i = fetchGo oracle 2 (i + 1) := by
  cases horc : oracle i with
  | throws => exact fetchGo_step_throw oracle i hi horc
  | resp r =>
    have : r.ok = false := by simpa [attemptOk, horc] using hfail
    exact fetchGo_step_notok oracle i (by omega) r horc this

theorem fetchGo_step_ok (oracle : Nat → AttemptOutcome) (i : Nat)
    (hi : i ≤ 2) (r : HttpResponse) (horc : oracle i = .resp r)
    (hok : r.ok = true) :
    fetchGo oracle 2 i = .ok (some r) := by
  rw [fetchGo]
  simp [hi, horc, hok]

theorem fetchGo_exhausted (oracle : Nat → AttemptOutcome) :
    fetchGo oracle 2 3 = .ok none := by
  rw [fetchGo]
  simp

/-- C5: `fetchWithRetry` makes at most 3 attempts (its result never
depends on the oracle beyond attempt index 2); it returns the first
`ok` response; three non-ok responses yield `null` (no exception); and an
exception thrown on the third attempt propagates. -/
theorem fetchWithRetry_spec :
    (∀ o1 o2 : Nat → AttemptOutcome, (∀ i, i < 3 → o1 i = o2 i) →
      fetchWithRetry o1 = fetchWithRetry o2) ∧
    (∀ (oracle : Nat → AttemptOutcome) (j : Nat) (r : HttpResponse),
      j < 3 → (∀ k, k < j → attemptOk (oracle k) = false) →
      oracle j = .resp r → r.ok = true →
      fetchWithRetry oracle = .ok (some r)) ∧
    (∀ oracle : Nat → AttemptOutcome,
      (∀ i, i < 3 → ∃ r, oracle i = .resp r ∧ r.ok = false) →
      fetchWithRetry oracle = .ok none) ∧
    (∀ oracle : Nat → AttemptOutcome,
      (∀ k, k < 2 → attemptOk (oracle k) = false) → oracle 2 = .throws →
      fetchWithRetry oracle = .error ()) := by
  have agree : ∀ o1 o2 : Nat → AttemptOutcome,
      (∀ i, i < 3 → o1 i = o2 i) →
      ∀ n i, 3 - i = n → fetchGo o1 2 i = fetchGo o2 2 i := by
    intro o1 o2 hagr n
    induction n with
    | zero =>
      intro i hn
      have hi : ¬(i ≤ 2) := by omega
      conv_lhs => rw [fetchGo]
      conv_rhs => rw [fetchGo]
      simp [hi]
    | succ n ih =>
      intro i hn
      have hi : i ≤ 2 := by omega
      conv_lhs => rw [fetchGo]
      conv_rhs => rw [fetchGo]
      rw [show o2 i = o1 i from (hagr i (by omega)).symm]
      cases horc : o1 i with
      | throws =>
        by_cases h2 : i = 2
        · simp [hi, h2]
        · simp only [hi, dif_pos, h2, if_false, ite_false]
          exact ih (i + 1) (by omega)
      | resp r =>
        cases hok : r.ok
        · simp only [hi, dif_pos, hok, if_false, ite_false, Bool.false_eq_true]
          exact ih (i + 1) (by omega)
        · simp [hi, hok]
  refine ⟨fun o1 o2 h => agree o1 o2 h 3 0 rfl, ?_, ?_, ?_⟩
  · intro oracle j r hj hfail horc hok
    interval_cases j
    · exact fetchGo_step_ok oracle 0 (by omega) r horc hok
    · rw [fetchWithRetry,
        fetchGo_step_fail oracle 0 (by omega) (hfail 0 (by omega))]
      exact fetchGo_step_ok oracle 1 (by omega) r horc hok
    · rw [fetchWithRetry,
        fetchGo_step_fail oracle 0 (by omega) (hfail 0 (by omega)),
        fetchGo_step_fail oracle 1 (by omega) (hfail 1 (by omega))]
      exact fetchGo_step_ok oracle 2 (by omega) r horc hok
  · intro oracle hall
    obtain ⟨r0, h0, hok0⟩ := hall 0 (by omega)
    obtain ⟨r1, h1, hok1⟩ := hall 1 (by omega)
    obtain ⟨r2, h2, hok2⟩ := hall 2 (by omega)
    rw [fetchWithRetry, fetchGo_step_notok oracle 0 (by omega) r0 h0 hok0,
      fetchGo_step_notok oracle 1 (by omega) r1 h1 hok1,
      fetchGo_step_notok oracle 2 (by omega) r2 h2 hok2]
    exact fetchGo_exhausted oracle
  · intro oracle hfail hthrow
    rw [fetchWithRetry,
      fetchGo_step_fail oracle 0 (by omega) (hfail 0 (by omega)),
      fetchGo_step_fail oracle 1 (by omega) (hfail 1 (by omega)),
      fetchGo]
    simp [hthrow]

theorem fetchWithRetry_spec_witness :
    fetchWithRetry (fun _ => AttemptOutcome.resp ⟨true, 7⟩) =
      fetchWithRetry (fun i =>
        if i < 3 then AttemptOutcome.resp ⟨true, 7⟩
        else AttemptOutcome.throws) ∧
    fetchWithRetry (fun i =>
        if i = 0 then AttemptOutcome.resp ⟨false, 0⟩
        else AttemptOutcome.resp ⟨true, 1⟩) =
      .ok (some ⟨true, 1⟩) ∧
    fetchWithRetry (fun _ => AttemptOutcome.resp ⟨false, 5⟩) = .ok none ∧
    fetchWithRetry (fun _ => AttemptOutcome.throws) = .error () :=
  ⟨fetchWithRetry_spec.1 _ _ (fun i hi => by simp [hi]),
   fetchWithRetry_spec.2.1 _ 1 ⟨true, 1⟩ (by omega)
     (fun k hk => by interval_cases k; rfl) rfl rfl,
   fetchWithRetry_spec.2.2.1 _ (fun i _ => ⟨⟨false, 5⟩, rfl, rfl⟩),
   fetchWithRetry_spec.2.2.2 _ (fun k _ => rfl) rfl⟩

/-- The literal `letterboxd.com/` of the list-URL regex
(fetch-list.js line 57). -/
def hostLit : List Char := "letterboxd.com/".toList

/-- The literal `/list/` of the list-URL regex. -/
def listLit : List Char := "/list/".toList

/-- The character class `[^/]` of the regex. -/
def notSlash (c : Char) : Bool := c ≠ '/'

/-- Match the part of the regex after the `letterboxd.com/` literal:
`([^/]+)\/list\/([^/]+)`. Each `[^/]+` is the maximal (greedy) run of
non-slash characters and must be non-empty; `/list/` must follow the
first run literally. -/
def matchTail (rest : List Char) : Option (List Char × List Char) :=
  if rest.takeWhile notSlash = [] then none
  else if listLit.isPrefixOf (rest.dropWhile notSlash) = true then
    if ((rest.dropWhile notSlash).drop listLit.length).takeWhile notSlash
        = [] then none
    else some (rest.takeWhile notSlash,
      ((rest.dropWhile notSlash).drop listLit.length).takeWhile notSlash)
  else none

/-- Try the full regex `letterboxd\.com\/([^/]+)\/list\/([^/]+)` at the
head of `s`. -/
def matchListAt (s : List Char) : Option (List Char × List Char) :=
  if hostLit.isPrefixOf s = true then matchTail (s.drop hostLit.length)
  else none

/-- Leftmost match: scan candidate start positions left to right, as
JavaScript `String.prototype.match` does for a non-global regex. -/
def findListMatch : List Char → Option (List Char × List Char)
  | [] => none
  | c :: rest =>
    match matchListAt (c :: rest) with
    | some r => some r
    | none => findListMatch rest

/-- `extractListPath` (fetch-list.js lines 53-62): on a match, rebuild
the canonical path `/<owner>/list/<name>` from the two captures. -/
def extractListPath (url : String) : Option String :=
  match findListMatch url.toList with
  | some (a, b) =>
    some (("/".toList ++ a ++ "/list/".toList ++ b).asString)
  | none => none

/-- `normalizeUrl` (index.js lines 31-34): trim whitespace from both
ends, strip every trailing slash, lowercase — modelled character-wise. -/
def normalizeUrl (inputUrl : String) : String :=
  let trimmedRev := (inputUrl.toList.dropWhile Char.isWhitespace).reverse.dropWhile Char.isWhitespace
  let noTrailingSlashRev := trimmedRev.dropWhile (fun c => c = '/')
  (noTrailingSlashRev.reverse.map Char.toLower).asString

theorem takeWhile_append_slash (l : List Char) :
    (l ++ ['/']).takeWhile notSlash = l.takeWhile notSlash := by
  induction l with
  | nil => rfl
  | cons c l ih =>
    rw [List.cons_append, List.takeWhile_cons, List.takeWhile_cons]
    cases hnc : notSlash c
    · rfl
    · rw [ih]

theorem dropWhile_append_slash (l : List Char) :
    (l ++ ['/']).dropWhile notSlash = l.dropWhile notSlash ++ ['/'] := by
  induction l with
  | nil => rfl
  | cons c l ih =>
    rw [List.cons_append, List.dropWhile_cons, List.dropWhile_cons]
    cases hnc : notSlash c
    · rfl
    · simp [ih]

theorem isPrefixOf_append_self (l t : List Char) :
    l.isPrefixOf (l ++ t) = true := by
  induction l with
  | nil => simp [List.isPrefixOf]
  | cons c l ih => simp [List.isPrefixOf, ih]

theorem eq_append_of_isPrefixOf :
    ∀ l s : List Char, l.isPrefixOf s = true → ∃ t, s = l ++ t := by
  intro l
  induction l with
  | nil => exact fun s _ => ⟨s, rfl⟩
  | cons c l ih =>
    intro s h
    cases s with
    | nil => simp [List.isPrefixOf] at h
    | cons d s =>
      simp only [List.isPrefixOf, Bool.and_eq_true, beq_iff_eq] at h
      obtain ⟨t, ht⟩ := ih s h.2
      exact ⟨t, by simp [h.1, ht]⟩

theorem isPrefixOf_of_append_eq (l s t : List Char) (h : s = l ++ t) :
    l.isPrefixOf s = true := by
  subst h
  exact isPrefixOf_append_self l t

theorem isPrefixOf_of_take (l s : List Char)
    (htake : s.take l.length = l) : l.isPrefixOf s = true := by
  apply isPrefixOf_of_append_eq l s (s.drop l.length)
  conv_lhs => rw [← List.take_append_drop l.length s]
  rw [htake]

theorem matchTail_append_slash (rest : List Char) :
    matchTail (rest ++ ['/']) = matchTail rest := by
  rw [matchTail, matchTail, takeWhile_append_slash, dropWhile_append_slash]
  by_cases h1 : rest.takeWhile notSlash = []
  · rw [if_pos h1, if_pos h1]
  · rw [if_neg h1, if_neg h1]
    by_cases h2 : listLit.isPrefixOf (rest.dropWhile notSlash) = true
    · obtain ⟨t, ht⟩ := eq_append_of_isPrefixOf listLit _ h2
      have h2' :
          listLit.isPrefixOf (rest.dropWhile notSlash ++ ['/']) = true := by
        rw [ht, List.append_assoc]
        exact isPrefixOf_append_self listLit (t ++ ['/'])
      rw [if_pos h2', if_pos h2, ht, List.append_assoc, List.drop_left,
        List.drop_left, takeWhile_append_slash]
    · by_cases h2' :
          listLit.isPrefixOf (rest.dropWhile notSlash ++ ['/']) = true
      · obtain ⟨t, ht⟩ := eq_append_of_isPrefixOf listLit _ h2'
        have hlen : (rest.dropWhile notSlash).length + 1 =
            listLit.length + t.length := by
          have := congrArg List.length ht
          simpa using this
        cases t with
        | nil =>
          have hr2' : rest.dropWhile notSlash ++ ['/'] = listLit := by
            simpa using ht
          rw [if_pos h2', if_neg h2, hr2', List.drop_length,
            List.takeWhile_nil, if_pos rfl]
        | cons x xs =>
          exfalso
          apply h2
          apply isPrefixOf_of_take
          have hge : listLit.length ≤ (rest.dropWhile notSlash).length := by
            simp only [List.length_cons] at hlen
            omega
          have htake :
              (rest.dropWhile notSlash ++ ['/']).take listLit.length =
                listLit := by
            rw [ht, List.take_left]
          rwa [List.take_append_of_le_length hge] at htake
      · rw [if_neg h2, if_neg h2']

theorem matchListAt_append_slash (l : List Char) :
    matchListAt (l ++ ['/']) = matchListAt l := by
  rw [matchListAt, matchListAt]
  by_cases h : hostLit.isPrefixOf l = true
  · obtain ⟨t, ht⟩ := eq_append_of_isPrefixOf hostLit l h
    have h' : hostLit.isPrefixOf (l ++ ['/']) = true := by
      rw [ht, List.append_assoc]
      exact isPrefixOf_append_self hostLit (t ++ ['/'])
    rw [if_pos h', if_pos h, ht, List.append_assoc, List.drop_left,
      List.drop_left, matchTail_append_slash]
  · by_cases h' : hostLit.isPrefixOf (l ++ ['/']) = true
    · obtain ⟨t, ht⟩ := eq_append_of_isPrefixOf hostLit _ h'
      have hlen : l.length + 1 = hostLit.length + t.length := by
        have := congrArg List.length ht
        simpa using this
      cases t with
      | nil =>
        have hl' : l ++ ['/'] = hostLit := by simpa using ht
        rw [if_pos h', if_neg h, hl', List.drop_length]
        rfl
      | cons x xs =>
        exfalso
        apply h
        apply isPrefixOf_of_take
        have hge : hostLit.length ≤ l.length := by
          simp only [List.length_cons] at hlen
          omega
        have htake : (l ++ ['/']).take hostLit.length = hostLit := by
          rw [ht, List.take_left]
        rwa [List.take_append_of_le_length hge] at htake
    · rw [if_neg h, if_neg h']

theorem findListMatch_append_slash (l : List Char) :
    findListMatch (l ++ ['/']) = findListMatch l := by
  induction l with
  | nil => rfl
  | cons c l ih =>
    rw [List.cons_append, findListMatch, findListMatch,
      ← List.cons_append, matchListAt_append_slash]
    cases matchListAt (c :: l) with
    | some r => rfl
    | none => simpa using ih

/-- C9 counterexample: two URLs differing only in the letter-case of the
host normalize identically, yet `extractListPath` (whose regex is
case-sensitive) derives a path from one and rejects the other. -/
theorem extractListPath_host_case_counterexample :
    normalizeUrl "https://Letterboxd.com/alice/list/watchlist/" =
      normalizeUrl "https://letterboxd.com/alice/list/watchlist" ∧
    extractListPath "https://Letterboxd.com/alice/list/watchlist/" = none ∧
    extractListPath "https://letterboxd.com/alice/list/watchlist" =
      some "/alice/list/watchlist" :=
  ⟨rfl, rfl, rfl⟩

/-- C9 (amended): list-identity derivation is insensitive to a trailing
slash — appending `/` to any input never changes the extracted path. Host
letter-case insensitivity does not hold (see the counterexample). -/
theorem extractListPath_trailing_slash (u : String) :
    extractListPath (u ++ "/") = extractListPath u := by
  rw [extractListPath, extractListPath]
  have h : (u ++ "/").toList = u.toList ++ ['/'] := by
    simp [String.toList]
  rw [h, findListMatch_append_slash]

/-- List-level reading of the C10 pattern: the character list contains,
anywhere, a substring `letterboxd.com/<segment>/list/<segment>` with both
segments non-empty and slash-free. -/
def containsListPatternL (l : List Char) : Prop :=
  ∃ pre a b post : List Char,
    l = pre ++ (hostLit ++ (a ++ (listLit ++ (b ++ post)))) ∧
    a ≠ [] ∧ b ≠ [] ∧
    (∀ c ∈ a, notSlash c = true) ∧ (∀ c ∈ b, notSlash c = true)

/-- The spec-side reading of C10, on strings. -/
def containsListPattern (s : String) : Prop :=
  containsListPatternL s.toList

theorem takeWhile_all_append (p : Char → Bool) (a rest : List Char)
    (ha : ∀ c ∈ a, p c = true) :
    (a ++ rest).takeWhile p = a ++ rest.takeWhile p := by
  induction a with
  | nil => rfl
  | cons c a ih =>
    have h1 : p c = true := ha c (List.mem_cons_self c a)
    have h2 := ih (fun d hd => ha d (List.mem_cons_of_mem c hd))
    simp [List.takeWhile_cons, h1, h2]

theorem dropWhile_all_append (p : Char → Bool) (a rest : List Char)
    (ha : ∀ c ∈ a, p c = true) :
    (a ++ rest).dropWhile p = rest.dropWhile p := by
  induction a with
  | nil => rfl
  | cons c a ih =>
    have h1 : p c = true := ha c (List.mem_cons_self c a)
    have h2 := ih (fun d hd => ha d (List.mem_cons_of_mem c hd))
    simp [List.dropWhile_cons, h1, h2]

theorem matchTail_of_shape (a b post : List Char) (ha : a ≠ [])
    (hb : b ≠ []) (ha2 : ∀ c ∈ a, notSlash c = true)
    (hb2 : ∀ c ∈ b, notSlash c = true) :
    (matchTail (a ++ (listLit ++ (b ++ post)))).isSome = true := by
  have hcons : listLit ++ (b ++ post) = '/' :: ("list/".toList ++ (b ++ post)) := rfl
  have htake : (a ++ (listLit ++ (b ++ post))).takeWhile notSlash = a := by
    rw [takeWhile_all_append notSlash a _ ha2, hcons, List.takeWhile_cons]
    simp [notSlash]
  have hdrop : (a ++ (listLit ++ (b ++ post))).dropWhile notSlash =
      listLit ++ (b ++ post) := by
    rw [dropWhile_all_append notSlash a _ ha2, hcons, List.dropWhile_cons]
    simp [notSlash]
  rw [matchTail, htake, hdrop, if_neg ha,
    if_pos (isPrefixOf_append_self listLit (b ++ post)), List.drop_left,
    takeWhile_all_append notSlash b post hb2]
  have hne : b ++ post.takeWhile notSlash ≠ [] := by
    intro hcontr
    exact hb (List.append_eq_nil.mp hcontr).1
  rw [if_neg hne]
  rfl

theorem findListMatch_isSome_of (tail : List Char)
    (h : (matchListAt tail).isSome = true) :
    ∀ pre, (findListMatch (pre ++ tail)).isSome = true := by
  intro pre
  induction pre with
  | nil =>
    cases tail with
    | nil =>
      rw [show matchListAt [] = none from rfl] at h
      simp at h
    | cons c t =>
      rw [List.nil_append, findListMatch]
      cases hm : matchListAt (c :: t) with
      | some r => rfl
      | none => rw [hm] at h; simp at h
  | cons c pre ih =>
    rw [List.cons_append, findListMatch]
    cases hm : matchListAt (c :: (pre ++ tail)) with
    | some r => rfl
    | none => exact ih

theorem matchTail_some_decomp (rest : List Char) (a b : List Char)
    (h : matchTail rest = some (a, b)) :
    ∃ post, rest = a ++ (listLit ++ (b ++ post)) ∧ a ≠ [] ∧ b ≠ [] ∧
      (∀ c ∈ a, notSlash c = true) ∧ (∀ c ∈ b, notSlash c = true) := by
  rw [matchTail] at h
  by_cases h1 : rest.takeWhile notSlash = []
  · rw [if_pos h1] at h
    cases h
  · rw [if_neg h1] at h
    by_cases h2 : listLit.isPrefixOf (rest.dropWhile notSlash) = true
    · rw [if_pos h2] at h
      by_cases h3 : ((rest.dropWhile notSlash).drop
          listLit.length).takeWhile notSlash = []
      · rw [if_pos h3] at h
        cases h
      · rw [if_neg h3] at h
        simp only [Option.some.injEq, Prod.mk.injEq] at h
        obtain ⟨ha, hb⟩ := h
        obtain ⟨t, ht⟩ := eq_append_of_isPrefixOf listLit _ h2
        have hdropt : (rest.dropWhile notSlash).drop listLit.length = t := by
          rw [ht, List.drop_left]
        have hb' : t.takeWhile notSlash = b := by
          rw [← hdropt]
          exact hb
        refine ⟨t.dropWhile notSlash, ?_, ?_, ?_, ?_, ?_⟩
        · conv_lhs => rw [← List.takeWhile_append_dropWhile notSlash rest]
          rw [ha, ht]
          conv_lhs => rw [← List.takeWhile_append_dropWhile notSlash t]
          rw [hb']
        · exact fun hh => h1 (ha.trans hh)
        · exact fun hh => h3 (hb.trans hh)
        · intro c hc
          rw [← ha] at hc
          exact List.mem_takeWhile_imp hc
        · intro c hc
          rw [← hb'] at hc
          exact List.mem_takeWhile_imp hc
    · rw [if_neg h2] at h
      cases h

theorem findListMatch_some_pattern :
    ∀ l r, findListMatch l = some r → containsListPatternL l := by
  intro l
  induction l with
  | nil => intro r h; cases h
  | cons c rest ih =>
    intro r h
    rw [findListMatch] at h
    cases hm : matchListAt (c :: rest) with
    | some p =>
      rw [matchListAt] at hm
      by_cases hp : hostLit.isPrefixOf (c :: rest) = true
      · rw [if_pos hp] at hm
        obtain ⟨t, htl⟩ := eq_append_of_isPrefixOf hostLit _ hp
        have hdrop : (c :: rest).drop hostLit.length = t := by
          rw [htl, List.drop_left]
        rw [hdrop] at hm
        obtain ⟨post, hteq, hrest⟩ := matchTail_some_decomp t p.1 p.2
          (by rw [hm])
        exact ⟨[], p.1, p.2, post, by rw [htl, hteq, List.nil_append],
          hrest⟩
      · rw [if_neg hp] at hm
        cases hm
    | none =>
      rw [hm] at h
      obtain ⟨pre, a, b, post, heq, hrest⟩ := ih r h
      exact ⟨c :: pre, a, b, post, by rw [List.cons_append, ← heq], hrest⟩

/-- C10: `extractListPath` accepts an input exactly when it contains the
substring `letterboxd.com/<segment>/list/<segment>` anywhere — no scheme,
host position or URL well-formedness is checked — and the path is derived
from the leftmost such occurrence (greedy non-slash segments), as the two
concrete evaluations show. -/
theorem extractListPath_substring_iff :
    (∀ s : String,
      (extractListPath s).isSome = true ↔ containsListPattern s) ∧
    extractListPath "see letterboxd.com/a/list/b/ here" =
      some "/a/list/b" ∧
    extractListPath "letterboxd.com/a/list/b/ letterboxd.com/c/list/d/" =
      some "/a/list/b" := by
  refine ⟨?_, rfl, rfl⟩
  intro s
  constructor
  · intro h
    rw [extractListPath] at h
    cases hm : findListMatch s.toList with
    | some r => exact findListMatch_some_pattern s.toList r hm
    | none => rw [hm] at h; cases h
  · rintro ⟨pre, a, b, post, heq, hane, hbne, haall, hball⟩
    have hmt : (matchListAt (hostLit ++ (a ++ (listLit ++ (b ++ post))))).isSome
        = true := by
      rw [matchListAt,
        if_pos (isPrefixOf_append_self hostLit (a ++ (listLit ++ (b ++ post)))),
        List.drop_left]
      exact matchTail_of_shape a b post hane hbne haall hball
    have hfind := findListMatch_isSome_of _ hmt pre
    rw [extractListPath]
    rw [← heq] at hfind
    cases hm : findListMatch s.toList with
    | some r => rfl
    | none => rw [hm] at hfind; cases hfind

theorem extractListPath_substring_iff_witness :
    (extractListPath "x letterboxd.com/al/list/bw tail").isSome = true :=
  (extractListPath_substring_iff.1 "x letterboxd.com/al/list/bw tail").mpr
    ⟨"x ".toList, "al".toList, "bw".toList, " tail".toList, by decide,
      by decide, by decide, by decide, by decide⟩

/-- A JavaScript exception as discriminated by the handler's catch block:
either an `Error` instance (carrying `error.message`) or any other thrown
value. -/
inductive JsError where
  | errorInstance (message : String)
  | nonError
deriving DecidableEq, Repr

/-- The handler's response: status code and JSON body as one value. -/
inductive HandlerOutcome where
  | badRequest (error : String)
  | notFound (error : String)
  | okFilms (films : List FilmRecord)
  | serverError (error : String)
deriving DecidableEq, Repr

/-- HTTP status set by `res.status(...)` for each outcome. -/
def statusOf : HandlerOutcome → Nat
  | .badRequest _ => 400
  | .notFound _ => 404
  | .okFilms _ => 200
  | .serverError _ => 500

/-- The API handler (fetch-list.js lines 4-51). The `url` query parameter
is `none` when absent; the concurrent collaborator calls (`tryRssFeed`
and `scrapeAllPages`) together with any exception escaping the `try`
block are abstracted into `pipeline`, mapping the derived list path to
either a thrown error or the pair of source results. The catch block
surfaces `error.message` for `Error` instances and the fixed fallback
text otherwise. -/
def handler (url : Option String)
    (pipeline : String →
      Except JsError (Option (List FilmRecord) × List FilmRecord)) :
    HandlerOutcome :=
  match url with
  | none => .badRequest "URL is required"
  | some u =>
    if u = "" then .badRequest "URL is required"
    else
      match extractListPath u with
      | none => .badRequest "Invalid Letterboxd list URL"
      | some listPath =>
        match pipeline listPath with
        | .error (.errorInstance msg) => .serverError msg
        | .error .nonError => .serverError "Failed to fetch list"
        | .ok (rssFilms, scrapedFilms) =>
          if (dedupeFilms (selectSource rssFilms scrapedFilms)).length = 0
          then
            .notFound
              "Could not fetch list. The list may be private or temporarily unavailable."
          else .okFilms (dedupeFilms (selectSource rssFilms scrapedFilms))

/-- C7: an absent, empty or shape-violating URL yields status 400 with an
outcome independent of the collaborators (no network calls); a
well-formed URL whose deduplicated collection is empty yields 404; a
non-empty deduplicated collection yields 200 with exactly that ordered,
deduplicated collection. -/
theorem handler_status_codes :
    (∀ (url : Option String)
      (p p2 : String →
        Except JsError (Option (List FilmRecord) × List FilmRecord)),
      (url = none ∨ url = some "" ∨
        (∃ u, url = some u ∧ extractListPath u = none)) →
      statusOf (handler url p) = 400 ∧ handler url p = handler url p2) ∧
    (∀ (u listPath : String)
      (p : String →
        Except JsError (Option (List FilmRecord) × List FilmRecord))
      (rssFilms : Option (List FilmRecord)) (scrapedFilms : List FilmRecord),
      extractListPath u = some listPath →
      p listPath = .ok (rssFilms, scrapedFilms) →
      (dedupeFilms (selectSource rssFilms scrapedFilms) = [] →
        statusOf (handler (some u) p) = 404) ∧
      (dedupeFilms (selectSource rssFilms scrapedFilms) ≠ [] →
        statusOf (handler (some u) p) = 200 ∧
        handler (some u) p =
          .okFilms (dedupeFilms (selectSource rssFilms scrapedFilms)))) := by
  constructor
  · rintro url p p2 (rfl | rfl | ⟨u, rfl, hu⟩)
    · exact ⟨rfl, rfl⟩
    · exact ⟨rfl, rfl⟩
    · by_cases he : u = ""
      · subst he
        exact ⟨rfl, rfl⟩
      · simp [handler, he, hu, statusOf]
  · intro u listPath p rssFilms scrapedFilms hu hp
    have he : ¬(u = "") := by
      intro hh
      subst hh
      rw [show extractListPath "" = none from rfl] at hu
      cases hu
    constructor
    · intro hempty
      simp [handler, he, hu, hp, hempty, statusOf]
    · intro hne
      have hlen : ¬(dedupeFilms (selectSource rssFilms scrapedFilms)).length
          = 0 := by
        simpa [List.length_eq_zero] using hne
      simp [handler, he, hu, hp, hlen, statusOf]

theorem handler_status_codes_witness :
    (statusOf (handler none (fun _ => .ok (none, []))) = 400 ∧
      handler none (fun _ => .ok (none, [])) =
        handler none (fun _ => .ok (some [filmB], [filmB]))) ∧
    (statusOf (handler (some "not-a-url") (fun _ => .ok (none, []))) = 400 ∧
      handler (some "not-a-url") (fun _ => .ok (none, [])) =
        handler (some "not-a-url") (fun _ => .ok (some [filmB], [filmB]))) ∧
    statusOf (handler (some "https://letterboxd.com/alice/list/watchlist/")
      (fun _ => .ok (none, []))) = 404 ∧
    statusOf (handler (some "https://letterboxd.com/alice/list/watchlist/")
      (fun _ => .ok (none, [filmA]))) = 200 ∧
    handler (some "https://letterboxd.com/alice/list/watchlist/")
        (fun _ => .ok (none, [filmA])) =
      .okFilms (dedupeFilms (selectSource none [filmA])) :=
  ⟨handler_status_codes.1 none _ _ (Or.inl rfl),
   handler_status_codes.1 (some "not-a-url") _ _
     (Or.inr (Or.inr ⟨"not-a-url", rfl, rfl⟩)),
   (handler_status_codes.2 "https://letterboxd.com/alice/list/watchlist/"
     "/alice/list/watchlist" _ none [] rfl rfl).1 rfl,
   ((handler_status_codes.2 "https://letterboxd.com/alice/list/watchlist/"
     "/alice/list/watchlist" _ none [filmA] rfl rfl).2 (by decide)).1,
   ((handler_status_codes.2 "https://letterboxd.com/alice/list/watchlist/"
     "/alice/list/watchlist" _ none [filmA] rfl rfl).2 (by decide)).2⟩

/-- C8 counterexample: an `Error` escaping the fetch stage is echoed to
the caller verbatim — the 500 body is the collaborator's raw exception
message, not a fixed message. -/
theorem handler_raw_error_counterexample :
    handler (some "https://letterboxd.com/alice/list/watchlist/")
        (fun _ =>
          .error (.errorInstance "connect ECONNREFUSED 1.2.3.4:443")) =
      .serverError "connect ECONNREFUSED 1.2.3.4:443" ∧
    "connect ECONNREFUSED 1.2.3.4:443" ≠ "Failed to fetch list" :=
  ⟨rfl, by decide⟩

/-- C8 (amended): every exception escaping the fetch/merge stages is
caught at the orchestrator boundary and becomes a status-500 JSON error
(never an unhandled fault or stack trace); the body is the exception's
own `message` when it is an `Error` instance — the collaborator's raw
message is surfaced — and the fixed text `Failed to fetch list`
otherwise. -/
theorem handler_error_boundary (u listPath msg : String)
    (p : String →
      Except JsError (Option (List FilmRecord) × List FilmRecord))
    (hu : extractListPath u = some listPath) :
    (p listPath = .error (.errorInstance msg) →
      handler (some u) p = .serverError msg ∧
      statusOf (handler (some u) p) = 500) ∧
    (p listPath = .error .nonError →
      handler (some u) p = .serverError "Failed to fetch list" ∧
      statusOf (handler (some u) p) = 500) := by
  have he : ¬(u = "") := by
    intro hh
    subst hh
    rw [show extractListPath "" = none from rfl] at hu
    cases hu
  constructor
  · intro hp
    constructor
    · simp [handler, he, hu, hp]
    · simp [handler, he, hu, hp, statusOf]
  · intro hp
    constructor
    · simp [handler, he, hu, hp]
    · simp [handler, he, hu, hp, statusOf]

theorem handler_error_boundary_witness :
    (handler (some "https://letterboxd.com/bob/list/noir/")
        (fun _ => .error (.errorInstance "boom")) =
      .serverError "boom" ∧
      statusOf (handler (some "https://letterboxd.com/bob/list/noir/")
        (fun _ => .error (.errorInstance "boom"))) = 500) ∧
    (handler (some "https://letterboxd.com/bob/list/noir/")
        (fun _ => .error .nonError) =
      .serverError "Failed to fetch list" ∧
      statusOf (handler (some "https://letterboxd.com/bob/list/noir/")
        (fun _ => .error .nonError)) = 500) :=
  ⟨(handler_error_boundary "https://letterboxd.com/bob/list/noir/"
      "/bob/list/noir" "boom" _ rfl).1 rfl,
   (handler_error_boundary "https://letterboxd.com/bob/list/noir/"
      "/bob/list/noir" "ignored" _ rfl).2 rfl⟩

end RandomLetterboxd
